import Mathlib

/-! Translator: the debounced, cancelable translation controller of `src/App.js`.

A shallow embedding of the component `Home` (lines 44-162 of `src/App.js`).  The buttons and
fields of the view are the events of `Event`; the Copy button touches no state and is left out.

* The five `useState` cells (`input`, `target`, `result`, `loading`, `error`) and the two
  `useRef` cells (`controllerRef`, `debounceRef`) are the fields of the record `Home`.
* `translate` is an `async` function.  Its body up to the first `await` is the function
  `translate`; the rest of the body (the `try` block after `fetch`, the `catch` and the
  `finally`) is the function `resume`, run when the `fetch` call of that invocation settles.
* The platform is made explicit: the list `fetches` holds every `fetch` call made so far
  together with the `aborted` flag of its `AbortController`, the list `timers` holds every
  timer created by `setTimeout`.  `JSON.stringify` is a parameter.
* Two rules of the platform enter the event model `step`: a `fetch` call whose signal is
  aborted settles by rejecting with `AbortError` (`delivered`), and React applies the calls of
  the state setters to a mounted component only (`applySetters`).
* The `useEffect` hook re-runs (clean-up of the previous run first) exactly when `input` or
  `target` changed; `translate` is a `useCallback` over the same two values.
-/

namespace Translator

/-! ## Values -/

/-- A parsed JSON body, as `res.json()` resolves to.  An object is the list of its own
properties in insertion order.  The component never inspects a number; the payload of `num`
stands for it, and its text is up to the `stringify` parameter. -/
inductive Json where
  | null
  | bool (b : Bool)
  | num (n : Int)
  | str (s : String)
  | arr (elems : List Json)
  | obj (fields : List (String × Json))

/-- An exception value: the two properties of `err` that `translate` reads. -/
structure JsError where
  name : String
  message : String

/-- A `Response` as far as `translate` looks at it: `res.status`, and how the promises
`res.text()` and `res.json()` settle. -/
structure Response where
  status : Nat
  text : Except JsError String
  json : Except JsError Json

/-- The getter `res.ok`: the status is in the range 200-299. -/
def Response.ok (res : Response) : Bool :=
  decide (200 ≤ res.status) && decide (res.status ≤ 299)

/-- A property read `j[k]` on a parsed JSON value, `none` standing for `undefined`.  Only the
keys `data` and `translatedText` are ever read, and no primitive wrapper, array or
`Object.prototype` has a property of either name; `null` has no properties (the optional
chain never reads one from it). -/
def Json.prop : Json → String → Option Json
  | .obj fields, k => fields.lookup k
  | _, _ => none

/-- The chain `json?.data?.translatedText` (line 93): each `?.` yields `undefined` when what stands
left of it is `null` or `undefined`. -/
def translatedText (json : Json) : Option Json :=
  match json with
  | .null => none
  | _ =>
    match json.prop "data" with
    | none => none
    | some .null => none
    | some data => data.prop "translatedText"

/-- The operator `a ?? b`: the right operand when the left one is `undefined` or `null`. -/
def nullish (a : Option Json) (b : Json) : Json :=
  match a with
  | none => b
  | some .null => b
  | some v => v

/-- The code points `String.prototype.trim` strips: WhiteSpace (TAB, VT, FF, ZWNBSP and the
category Zs) and LineTerminator (LF, CR, LS, PS). -/
def isWhiteSpace (c : Char) : Bool :=
  let n := c.toNat
  n == 0x09 || n == 0x0A || n == 0x0B || n == 0x0C || n == 0x0D || n == 0x20 || n == 0xA0 ||
  n == 0x1680 || (decide (0x2000 ≤ n) && decide (n ≤ 0x200A)) || n == 0x2028 || n == 0x2029 ||
  n == 0x202F || n == 0x205F || n == 0x3000 || n == 0xFEFF

/-- The call `s.trim()`: white space removed from both ends. -/
def trim (s : String) : String :=
  ⟨((s.data.dropWhile isWhiteSpace).reverse.dropWhile isWhiteSpace).reverse⟩

/-- An input string that is empty or consists only of white space. -/
def isBlank (s : String) : Bool :=
  s.data.all isWhiteSpace

/-! ## The controller and its platform -/

/-- One `fetch` call of `translate` (lines 72-85): the `text` and `target_language` fields of
its body, whether `abort()` was called on the `AbortController` whose signal it carries, and
whether it has settled. -/
structure Fetch where
  text : String
  target : String
  aborted : Bool
  settled : Bool

/-- One timer made by `setTimeout(() => translate(), 700)` (lines 107-109): the `input` and
`target` its `translate` closure holds, its delay, and whether it is still to fire. -/
structure Timer where
  input : String
  target : String
  delay : Nat
  pending : Bool

/-- The component `Home`: its state cells, its refs, and the fetch calls and timers it has
made.  A ref holds the index of the fetch call (of the timer) whose handle it stores. -/
structure Home where
  input : String
  target : String
  result : Json
  loading : Bool
  error : Option String
  controllerRef : Option Nat
  debounceRef : Option Nat
  fetches : List Fetch
  timers : List Timer
  mounted : Bool

/-- Replace the element at index `i`, if there is one, by its image under `f`. -/
def updateAt {α : Type} (f : α → α) : List α → Nat → List α
  | [], _ => []
  | x :: xs, 0 => f x :: xs
  | x :: xs, i + 1 => x :: updateAt f xs i

/-- The call `controllerRef.current.abort()` guarded by `if (controllerRef.current)`
(lines 60 and 112). -/
def abortCurrent (s : Home) : Home :=
  match s.controllerRef with
  | none => s
  | some c => { s with fetches := updateAt (fun f => { f with aborted := true }) s.fetches c }

/-- The call `clearTimeout(debounceRef.current)` guarded by `if (debounceRef.current)`
(lines 106 and 111). -/
def clearCurrent (s : Home) : Home :=
  match s.debounceRef with
  | none => s
  | some t => { s with timers := updateAt (fun x => { x with pending := false }) s.timers t }

/-- The body of `translate` up to its first `await` (lines 54-85), for the `input` and
`target` its closure holds. -/
def translate (s : Home) (input target : String) : Home :=
  let s := { s with error := none }
  if trim input = "" then
    { s with result := .str "" }
  else
    let s := abortCurrent s
    let s := { s with controllerRef := some s.fetches.length }
    let s := { s with loading := true }
    { s with fetches := s.fetches ++ [{ text := input, target := target,
                                         aborted := false, settled := false }] }

/-- The `try` block of `translate` from the settlement of `fetch` on (lines 72-93): the value
it hands to `setResult`, or the exception it leaves with. -/
def tryBlock (stringify : Json → String) (fetched : Except JsError Response) :
    Except JsError Json :=
  match fetched with
  | .error err => .error err
  | .ok res =>
    if !res.ok then
      match res.text with
      | .error err => .error err
      | .ok t =>
        .error { name := "Error", message := "API error: " ++ toString res.status ++ " " ++ t }
    else
      match res.json with
      | .error err => .error err
      | .ok json => .ok (nullish (translatedText json) (.str (stringify json)))

/-- The rest of an invocation of `translate`, run when its `fetch` call settles
(lines 87-100): `setResult` on success, the `catch` clause, and the `finally` clause. -/
def resume (stringify : Json → String) (s : Home) (fetched : Except JsError Response) : Home :=
  match tryBlock stringify fetched with
  | .ok v => { s with result := v, loading := false }
  | .error err =>
    if err.name = "AbortError" then
      { s with loading := false }
    else
      { s with error := some err.message, result := .str "", loading := false }

/-- The clean-up function of the effect (lines 110-113). -/
def cleanup (s : Home) : Home :=
  abortCurrent (clearCurrent s)

/-- The effect itself (lines 106-109). -/
def effect (s : Home) : Home :=
  let s := clearCurrent s
  { s with
    debounceRef := some s.timers.length
    timers := s.timers ++ [{ input := s.input, target := s.target, delay := 700,
                             pending := true }] }

/-- A render in which `input` or `target` changed: the previous effect is cleaned up and the
effect runs again. -/
def commit (s : Home) : Home :=
  effect (cleanup s)

/-- The exception a `fetch` whose signal is aborted rejects with. -/
def abortError : JsError :=
  { name := "AbortError", message := "The user aborted a request." }

/-- What the transport hands to the invocation that awaits a fetch call.  The call carries the
signal of its controller (line 84): once `abort()` was called on that controller, `fetch`, or
the body read that follows it, rejects with `abortError`, whatever the service answered.  A
call that is not aborted settles as the service answered. -/
def delivered (f : Fetch) (fetched : Except JsError Response) : Except JsError Response :=
  if f.aborted then .error abortError else fetched

/-- React applies the calls of the state setters to a mounted component only: the five state
cells are those of `new` when `old` is mounted and stay those of `old` when it is not.  Refs,
fetch calls and timers are no state cells and are those of `new`. -/
def applySetters (old new : Home) : Home :=
  if old.mounted then new
  else
    { new with
      input := old.input, target := old.target, result := old.result,
      loading := old.loading, error := old.error }

/-- What can happen to the component. -/
inductive Event where
  | changeInput (v : String)
  | changeTarget (v : String)
  | translateNow
  | clear
  | timerFires (t : Nat)
  | settles (i : Nat) (fetched : Except JsError Response)
  | unmount

/-- One event.  The four user events reach a mounted component only; a timer fires only while
pending; a fetch call settles once, with what the transport delivers for it; the setter calls
of `translate` and of `resume` go through `applySetters`. -/
def step (stringify : Json → String) (s : Home) : Event → Home
  | .changeInput v =>
    if s.mounted && v != s.input then commit { s with input := v } else s
  | .changeTarget v =>
    if s.mounted && v != s.target then commit { s with target := v } else s
  | .translateNow =>
    if s.mounted then translate s s.input s.target else s
  | .clear =>
    if s.mounted then
      let s1 := { s with input := "", result := .str "" }
      if s.input != "" then commit s1 else s1
    else s
  | .timerFires t =>
    match s.timers[t]? with
    | none => s
    | some x =>
      if x.pending then
        applySetters s
          (translate
            { s with timers := updateAt (fun y => { y with pending := false }) s.timers t }
            x.input x.target)
      else s
  | .settles i fetched =>
    match s.fetches[i]? with
    | none => s
    | some f =>
      if f.settled then s
      else
        applySetters s
          (resume stringify
            { s with fetches := updateAt (fun g => { g with settled := true }) s.fetches i }
            (delivered f fetched))
  | .unmount =>
    if s.mounted then { cleanup s with mounted := false } else s

/-- A sequence of events, from left to right. -/
def run (stringify : Json → String) (s : Home) (es : List Event) : Home :=
  es.foldl (step stringify) s

/-- The component after its first render and the first run of its effect
(lines 45-51 and 105-109). -/
def init : Home :=
  effect
    { input := "Hello, how are you?", target := "es", result := .str "", loading := false,
      error := none, controllerRef := none, debounceRef := none, fetches := [], timers := [],
      mounted := true }

/-- An invocation of `translate` run from its first line to its last with nothing in between:
the body up to the `await` and, when a fetch call was sent (the call with index
`s.fetches.length`), the rest of the body on the settlement `fetched` of that call.  On a
mounted component this is the event model's settlement of the call just sent
(`step_translate_settles`). -/
def translateSettled (stringify : Json → String) (s : Home) (input target : String)
    (fetched : Except JsError Response) : Home :=
  if trim input = "" then translate s input target
  else
    resume stringify
      { translate s input target with
        fetches := updateAt (fun g => { g with settled := true })
          (translate s input target).fetches s.fetches.length }
      fetched

/-- A fetch call that is in flight: sent, not settled, not canceled. -/
def Fetch.inFlight (f : Fetch) : Bool :=
  !f.settled && !f.aborted

/-! ## A serialiser to instantiate `JSON.stringify` -/

/-- A lower-case hexadecimal digit. -/
def hexDigit (n : Nat) : Char :=
  if n < 10 then Char.ofNat (48 + n) else Char.ofNat (87 + n)

/-- One character of a quoted JSON string. -/
def quoteChar (c : Char) : List Char :=
  let n := c.toNat
  let bs := Char.ofNat 92
  if n = 34 then [bs, c]
  else if n = 92 then [bs, c]
  else if n = 8 then [bs, Char.ofNat 98]
  else if n = 9 then [bs, Char.ofNat 116]
  else if n = 10 then [bs, Char.ofNat 110]
  else if n = 12 then [bs, Char.ofNat 102]
  else if n = 13 then [bs, Char.ofNat 114]
  else if n < 32 then
    [bs, Char.ofNat 117, Char.ofNat 48, Char.ofNat 48, hexDigit (n / 16), hexDigit (n % 16)]
  else [c]

/-- A quoted JSON string. -/
def quote (s : String) : String :=
  ⟨Char.ofNat 34 :: (s.data.flatMap quoteChar ++ [Char.ofNat 34])⟩

mutual
/-- The compact serialisation of a JSON value, the text `JSON.stringify` of one argument
gives for it. -/
def stringifyJson : Json → String
  | .null => "null"
  | .bool b => if b then "true" else "false"
  | .num n => toString n
  | .str s => quote s
  | .arr elems => "[" ++ stringifyElems elems ++ "]"
  | .obj fields => "\x7b" ++ stringifyFields fields ++ "\x7d"
/-- The elements of an array, separated by commas. -/
def stringifyElems : List Json → String
  | [] => ""
  | [j] => stringifyJson j
  | j :: js => stringifyJson j ++ "," ++ stringifyElems js
/-- The properties of an object, separated by commas. -/
def stringifyFields : List (String × Json) → String
  | [] => ""
  | [(k, j)] => quote k ++ ":" ++ stringifyJson j
  | (k, j) :: fs => quote k ++ ":" ++ stringifyJson j ++ "," ++ stringifyFields fs
end

/-! ## Example values -/

/-- The body of the spec's first example, with `translatedText` equal to Hola. -/
def holaBody : Json :=
  .obj [("data", .obj [("translatedText", .str "Hola")])]

/-- The body of the spec's second example, without `data.translatedText`. -/
def fooBody : Json :=
  .obj [("foo", .str "bar")]

/-- The response of the spec's third example: status 429 with the body text rate limited,
which is not JSON. -/
def rateLimited : Response :=
  { status := 429, text := .ok "rate limited",
    json := .error { name := "SyntaxError", message := "Unexpected token" } }

/-- The state in which the fetch call for the initial input has been sent (the first timer
fired) and then canceled (the input was edited, so the clean-up of the effect ran). -/
def canceledState : Home :=
  run stringifyJson init [.timerFires 0, .changeInput "Hi"]

/-! ## Invariants -/

/-- Only the timer whose handle `debounceRef` holds can be pending; it was made with the
delay 700 by a mounted component, and its closure holds the current `input` and `target`. -/
def TimersOk (s : Home) : Prop :=
  ∀ i t, s.timers[i]? = some t → t.pending = true →
    s.debounceRef = some i ∧ t.input = s.input ∧ t.target = s.target ∧ t.delay = 700 ∧
    s.mounted = true

/-- Only the fetch call whose handle `controllerRef` holds can be in flight, and only on a
mounted component; `controllerRef` holds the handle of a fetch call that was made. -/
def FetchesOk (s : Home) : Prop :=
  (∀ i f, s.fetches[i]? = some f → f.inFlight = true →
    s.controllerRef = some i ∧ s.mounted = true) ∧
  (∀ c, s.controllerRef = some c → c < s.fetches.length)

/-! ## Edits and teardown -/

/-- An edit of the text area or of the target-language selector. -/
inductive Edit where
  | input (v : String)
  | target (v : String)

/-- The event an edit raises. -/
def Edit.event : Edit → Event
  | .input v => .changeInput v
  | .target v => .changeTarget v

/-- The state holds the value an edit typed or selected. -/
def Edit.applied (s : Home) : Edit → Prop
  | .input v => s.input = v
  | .target v => s.target = v

/-- The state reached from the initial one by the events `pre`, then by the edits `es` and a
final edit `last` with no other event in between. -/
def afterEdits (stringify : Json → String) (pre : List Event) (es : List Edit) (last : Edit) :
    Home :=
  run stringify (run stringify init pre) ((es ++ [last]).map Edit.event)

/-- The state reached from the initial one by the events `pre` and then teardown. -/
def afterTeardown (stringify : Json → String) (pre : List Event) : Home :=
  step stringify (run stringify init pre) .unmount

/-- The state in which the fetch call sent by the first timer has been superseded by the one
of the button Translate now, and the superseded call has settled with its abort error. -/
def superseded : Home :=
  run stringifyJson init [.timerFires 0, .translateNow, .settles 0 (.error abortError)]

/-! ## Lists and strings -/

theorem length_updateAt {α : Type} (f : α → α) (l : List α) (i : Nat) :
    (updateAt f l i).length = l.length := by
  induction l generalizing i with
  | nil => rfl
  | cons x xs ih =>
    cases i with
    | zero => rfl
    | succ i => simp [updateAt, ih]

theorem getElem?_updateAt {α : Type} (f : α → α) (l : List α) (i j : Nat) :
    (updateAt f l i)[j]? = if j = i then l[j]?.map f else l[j]? := by
  induction l generalizing i j with
  | nil => simp [updateAt]
  | cons x xs ih =>
    cases i with
    | zero =>
      cases j with
      | zero => simp [updateAt]
      | succ j => simp [updateAt]
    | succ i =>
      cases j with
      | zero => simp [updateAt]
      | succ j => simp [updateAt, ih]

theorem trim_eq_empty_iff (s : String) : trim s = "" ↔ isBlank s = true := by
  have h1 : trim s = "" ↔
      ((s.data.dropWhile isWhiteSpace).reverse.dropWhile isWhiteSpace).reverse = [] := by
    unfold trim
    constructor
    · intro h
      exact congrArg String.data h
    · intro h
      rw [h]
  rw [h1, List.reverse_eq_nil_iff, List.dropWhile_eq_nil_iff]
  unfold isBlank
  rw [List.all_eq_true]
  constructor
  · intro h
    have h2 : s.data.dropWhile isWhiteSpace = [] := by
      by_contra hne
      have hhead := List.head_dropWhile_not isWhiteSpace s.data hne
      have hmem : (s.data.dropWhile isWhiteSpace).head hne ∈
          (s.data.dropWhile isWhiteSpace).reverse :=
        List.mem_reverse.mpr (List.head_mem hne)
      rw [h _ hmem] at hhead
      exact Bool.noConfusion hhead
    exact List.dropWhile_eq_nil_iff.mp h2
  · intro h x hx
    have h2 : s.data.dropWhile isWhiteSpace = [] := List.dropWhile_eq_nil_iff.mpr h
    rw [h2] at hx
    simp at hx

theorem trim_ne_empty {s : String} (h : isBlank s = false) : ¬ trim s = "" := by
  intro h1
  rw [(trim_eq_empty_iff s).mp h1] at h
  exact Bool.noConfusion h

/-! ## The two halves of `translate` -/

theorem abortCurrent_length (s : Home) : (abortCurrent s).fetches.length = s.fetches.length := by
  unfold abortCurrent
  cases s.controllerRef with
  | none => rfl
  | some c => exact length_updateAt _ _ _

theorem translate_of_blank {s : Home} {input : String} (target : String)
    (h : isBlank input = true) :
    translate s input target = { s with error := none, result := .str "" } := by
  unfold translate
  simp only [(trim_eq_empty_iff input).mpr h, if_true]

theorem translate_of_nonblank {s : Home} {input : String} (target : String)
    (h : isBlank input = false) :
    translate s input target =
      { s with
        error := none
        controllerRef := some s.fetches.length
        loading := true
        fetches := (abortCurrent s).fetches ++
          [{ text := input, target := target, aborted := false, settled := false }] } := by
  unfold translate
  simp only [trim_ne_empty h, if_false]
  have hl := abortCurrent_length s
  unfold abortCurrent at hl ⊢
  cases hc : s.controllerRef with
  | none => rfl
  | some c =>
    rw [hc] at hl
    simp only at hl ⊢
    rw [hl]

theorem translate_sent {s : Home} {input : String} (target : String)
    (h : isBlank input = false) :
    (translate s input target).fetches[s.fetches.length]? =
      some { text := input, target := target, aborted := false, settled := false } := by
  rw [translate_of_nonblank target h]
  simp only
  rw [← abortCurrent_length s]
  simp

theorem resume_result (stringify : Json → String) (s : Home)
    (fetched : Except JsError Response) :
    (resume stringify s fetched).result =
      match tryBlock stringify fetched with
      | .ok v => v
      | .error err => if err.name = "AbortError" then s.result else .str "" := by
  unfold resume
  cases tryBlock stringify fetched with
  | ok v => rfl
  | error err => by_cases h : err.name = "AbortError" <;> simp [h]

theorem resume_error (stringify : Json → String) (s : Home)
    (fetched : Except JsError Response) :
    (resume stringify s fetched).error =
      match tryBlock stringify fetched with
      | .ok _ => s.error
      | .error err => if err.name = "AbortError" then s.error else some err.message := by
  unfold resume
  cases tryBlock stringify fetched with
  | ok v => rfl
  | error err => by_cases h : err.name = "AbortError" <;> simp [h]

theorem applySetters_mounted {old : Home} (new : Home) (h : old.mounted = true) :
    applySetters old new = new := by
  unfold applySetters
  rw [if_pos h]

theorem applySetters_frame (old new : Home) :
    (applySetters old new).controllerRef = new.controllerRef ∧
    (applySetters old new).debounceRef = new.debounceRef ∧
    (applySetters old new).fetches = new.fetches ∧
    (applySetters old new).timers = new.timers ∧
    (applySetters old new).mounted = new.mounted := by
  unfold applySetters
  split <;> exact ⟨rfl, rfl, rfl, rfl, rfl⟩

theorem applySetters_unmounted {old : Home} (new : Home) (h : old.mounted = false) :
    (applySetters old new).input = old.input ∧
    (applySetters old new).target = old.target ∧
    (applySetters old new).result = old.result ∧
    (applySetters old new).loading = old.loading ∧
    (applySetters old new).error = old.error := by
  unfold applySetters
  rw [h]
  exact ⟨rfl, rfl, rfl, rfl, rfl⟩

/-- Cells that `new` leaves as they are in `old` are left so by `applySetters`. -/
theorem applySetters_cells (old new : Home) :
    (new.input = old.input → (applySetters old new).input = old.input) ∧
    (new.target = old.target → (applySetters old new).target = old.target) ∧
    (new.result = old.result → (applySetters old new).result = old.result) ∧
    (new.error = old.error → (applySetters old new).error = old.error) := by
  unfold applySetters
  split
  · exact ⟨id, id, id, id⟩
  · exact ⟨fun _ => rfl, fun _ => rfl, fun _ => rfl, fun _ => rfl⟩

theorem step_settles (stringify : Json → String) {s : Home} {i : Nat} {f : Fetch}
    (fetched : Except JsError Response) (hf : s.fetches[i]? = some f) (hs : f.settled = false) :
    step stringify s (.settles i fetched) =
      applySetters s
        (resume stringify
          { s with fetches := updateAt (fun g => { g with settled := true }) s.fetches i }
          (delivered f fetched)) := by
  simp only [step, hf, hs]
  rfl

theorem resume_abortError (stringify : Json → String) (s : Home) :
    resume stringify s (.error abortError) = { s with loading := false } := by
  simp [resume, tryBlock, abortError]

theorem delivered_aborted {f : Fetch} (fetched : Except JsError Response)
    (h : f.aborted = true) : delivered f fetched = .error abortError := by
  unfold delivered
  rw [if_pos h]

theorem delivered_live {f : Fetch} (fetched : Except JsError Response)
    (h : f.aborted = false) : delivered f fetched = fetched := by
  unfold delivered
  rw [h]
  rfl

/-- The settlement of an aborted fetch call changes, of the state cells, at most `loading`,
and leaves refs and timers as they are. -/
theorem step_settles_aborted (stringify : Json → String) {s : Home} {i : Nat} {f : Fetch}
    (fetched : Except JsError Response) (hf : s.fetches[i]? = some f)
    (ha : f.aborted = true) :
    (step stringify s (.settles i fetched)).input = s.input ∧
    (step stringify s (.settles i fetched)).target = s.target ∧
    (step stringify s (.settles i fetched)).result = s.result ∧
    (step stringify s (.settles i fetched)).error = s.error ∧
    (step stringify s (.settles i fetched)).controllerRef = s.controllerRef ∧
    (step stringify s (.settles i fetched)).debounceRef = s.debounceRef ∧
    (step stringify s (.settles i fetched)).timers = s.timers ∧
    (step stringify s (.settles i fetched)).mounted = s.mounted := by
  cases hs : f.settled with
  | true =>
    have h : step stringify s (.settles i fetched) = s := by simp [step, hf, hs]
    rw [h]
    exact ⟨rfl, rfl, rfl, rfl, rfl, rfl, rfl, rfl⟩
  | false =>
    rw [step_settles stringify fetched hf hs, delivered_aborted fetched ha, resume_abortError]
    have hc := applySetters_cells s
      { { s with fetches := updateAt (fun g => { g with settled := true }) s.fetches i } with
        loading := false }
    have hfr := applySetters_frame s
      { { s with fetches := updateAt (fun g => { g with settled := true }) s.fetches i } with
        loading := false }
    exact ⟨hc.1 rfl, hc.2.1 rfl, hc.2.2.1 rfl, hc.2.2.2 rfl, hfr.1, hfr.2.1, hfr.2.2.2.1,
      hfr.2.2.2.2⟩

theorem translateSettled_of_nonblank (stringify : Json → String) {s : Home} {input : String}
    (target : String) (fetched : Except JsError Response) (h : isBlank input = false) :
    translateSettled stringify s input target fetched =
      resume stringify
        { translate s input target with
          fetches := updateAt (fun g => { g with settled := true })
            (translate s input target).fetches s.fetches.length }
        fetched := by
  unfold translateSettled
  rw [if_neg (trim_ne_empty h)]

/-- On a mounted component, the settlement of the call an invocation of `translate` has just
sent is the event model's rendering of `translateSettled`. -/
theorem step_translate_settles (stringify : Json → String) {s : Home} {input : String}
    (target : String) (fetched : Except JsError Response) (h : isBlank input = false)
    (hm : s.mounted = true) :
    step stringify (translate s input target) (.settles s.fetches.length fetched) =
      translateSettled stringify s input target fetched := by
  have hm2 : (translate s input target).mounted = true := by
    rw [translate_of_nonblank target h]
    exact hm
  rw [step_settles stringify fetched (translate_sent target h) rfl, applySetters_mounted _ hm2,
    delivered_live fetched rfl, translateSettled_of_nonblank stringify target fetched h]

theorem translatedText_of_data {json data : Json} (h : json.prop "data" = some data) :
    translatedText json = data.prop "translatedText" := by
  cases json with
  | obj fields =>
    simp only [translatedText, h]
    cases data <;> rfl
  | _ => simp [Json.prop] at h

theorem translatedText_no_data {json : Json} (h : json.prop "data" = none) :
    translatedText json = none := by
  cases json <;> simp [translatedText, h]

/-! ## Frame lemmas -/

theorem getElem?_updateAt_of {α : Type} (f : α → α) (p : α → Bool) (hp : ∀ x, p (f x) = false)
    {l : List α} {i j : Nat} {y : α} (h : (updateAt f l i)[j]? = some y) (hy : p y = true) :
    j ≠ i ∧ l[j]? = some y := by
  rw [getElem?_updateAt] at h
  by_cases hji : j = i
  · rw [if_pos hji] at h
    cases hl : l[j]? with
    | none =>
      rw [hl] at h
      exact Option.noConfusion h
    | some x =>
      rw [hl] at h
      have hxy : f x = y := Option.some.inj h
      rw [← hxy, hp x] at hy
      exact Bool.noConfusion hy
  · rw [if_neg hji] at h
    exact ⟨hji, h⟩

theorem translate_frame (s : Home) (input target : String) :
    (translate s input target).input = s.input ∧
    (translate s input target).target = s.target ∧
    (translate s input target).debounceRef = s.debounceRef ∧
    (translate s input target).timers = s.timers ∧
    (translate s input target).mounted = s.mounted := by
  cases h : isBlank input with
  | true =>
    rw [translate_of_blank target h]
    exact ⟨rfl, rfl, rfl, rfl, rfl⟩
  | false =>
    rw [translate_of_nonblank target h]
    exact ⟨rfl, rfl, rfl, rfl, rfl⟩

theorem resume_frame (stringify : Json → String) (s : Home)
    (fetched : Except JsError Response) :
    (resume stringify s fetched).input = s.input ∧
    (resume stringify s fetched).target = s.target ∧
    (resume stringify s fetched).controllerRef = s.controllerRef ∧
    (resume stringify s fetched).debounceRef = s.debounceRef ∧
    (resume stringify s fetched).fetches = s.fetches ∧
    (resume stringify s fetched).timers = s.timers ∧
    (resume stringify s fetched).mounted = s.mounted := by
  unfold resume
  split
  · exact ⟨rfl, rfl, rfl, rfl, rfl, rfl, rfl⟩
  · split <;> exact ⟨rfl, rfl, rfl, rfl, rfl, rfl, rfl⟩

theorem clearCurrent_frame (s : Home) :
    (clearCurrent s).input = s.input ∧ (clearCurrent s).target = s.target ∧
    (clearCurrent s).result = s.result ∧ (clearCurrent s).loading = s.loading ∧
    (clearCurrent s).error = s.error ∧ (clearCurrent s).controllerRef = s.controllerRef ∧
    (clearCurrent s).debounceRef = s.debounceRef ∧ (clearCurrent s).fetches = s.fetches ∧
    (clearCurrent s).mounted = s.mounted ∧
    (clearCurrent s).timers.length = s.timers.length := by
  unfold clearCurrent
  split
  · exact ⟨rfl, rfl, rfl, rfl, rfl, rfl, rfl, rfl, rfl, rfl⟩
  · exact ⟨rfl, rfl, rfl, rfl, rfl, rfl, rfl, rfl, rfl, length_updateAt _ _ _⟩

theorem abortCurrent_frame (s : Home) :
    (abortCurrent s).input = s.input ∧ (abortCurrent s).target = s.target ∧
    (abortCurrent s).result = s.result ∧ (abortCurrent s).loading = s.loading ∧
    (abortCurrent s).error = s.error ∧ (abortCurrent s).controllerRef = s.controllerRef ∧
    (abortCurrent s).debounceRef = s.debounceRef ∧ (abortCurrent s).timers = s.timers ∧
    (abortCurrent s).mounted = s.mounted := by
  unfold abortCurrent
  split <;> exact ⟨rfl, rfl, rfl, rfl, rfl, rfl, rfl, rfl, rfl⟩

/-- After `clearCurrent`, a timer is pending only if it was pending before and its handle is
not the one in `debounceRef`. -/
theorem clearCurrent_pending {s : Home} {j : Nat} {y : Timer}
    (h : (clearCurrent s).timers[j]? = some y) (hy : y.pending = true) :
    s.timers[j]? = some y ∧ s.debounceRef ≠ some j := by
  unfold clearCurrent at h
  cases hd : s.debounceRef with
  | none =>
    rw [hd] at h
    exact ⟨h, fun hc => Option.noConfusion hc⟩
  | some t =>
    rw [hd] at h
    have h2 := getElem?_updateAt_of (fun x : Timer => { x with pending := false })
      (fun x => x.pending) (fun _ => rfl) h hy
    exact ⟨h2.2, fun hc => h2.1 (Option.some.inj hc).symm⟩

/-- After `abortCurrent`, a fetch call is in flight only if it was in flight before and its
handle is not the one in `controllerRef`. -/
theorem abortCurrent_inFlight {s : Home} {j : Nat} {y : Fetch}
    (h : (abortCurrent s).fetches[j]? = some y) (hy : y.inFlight = true) :
    s.fetches[j]? = some y ∧ s.controllerRef ≠ some j := by
  unfold abortCurrent at h
  cases hd : s.controllerRef with
  | none =>
    rw [hd] at h
    exact ⟨h, fun hc => Option.noConfusion hc⟩
  | some t =>
    rw [hd] at h
    have h2 := getElem?_updateAt_of (fun x : Fetch => { x with aborted := true })
      (fun x => x.inFlight) (fun x => by simp [Fetch.inFlight]) h hy
    exact ⟨h2.2, fun hc => h2.1 (Option.some.inj hc).symm⟩

theorem clearCurrent_none_pending {s : Home}
    (hs : ∀ i t, s.timers[i]? = some t → t.pending = true → s.debounceRef = some i)
    {j : Nat} {y : Timer} (h : (clearCurrent s).timers[j]? = some y) : y.pending = false := by
  cases hy : y.pending with
  | false => rfl
  | true =>
    have h2 := clearCurrent_pending h hy
    exact absurd (hs j y h2.1 hy) h2.2

theorem abortCurrent_none_inFlight {s : Home}
    (hs : ∀ i f, s.fetches[i]? = some f → f.inFlight = true → s.controllerRef = some i)
    {j : Nat} {y : Fetch} (h : (abortCurrent s).fetches[j]? = some y) : y.inFlight = false := by
  cases hy : y.inFlight with
  | false => rfl
  | true =>
    have h2 := abortCurrent_inFlight h hy
    exact absurd (hs j y h2.1 hy) h2.2

theorem effect_frame (s : Home) :
    (effect s).input = s.input ∧ (effect s).target = s.target ∧
    (effect s).result = s.result ∧ (effect s).loading = s.loading ∧
    (effect s).error = s.error ∧ (effect s).controllerRef = s.controllerRef ∧
    (effect s).fetches = s.fetches ∧ (effect s).mounted = s.mounted := by
  have h := clearCurrent_frame s
  unfold effect
  exact ⟨h.1, h.2.1, h.2.2.1, h.2.2.2.1, h.2.2.2.2.1, h.2.2.2.2.2.1, h.2.2.2.2.2.2.2.1,
    h.2.2.2.2.2.2.2.2.1⟩

theorem cleanup_frame (s : Home) :
    (cleanup s).input = s.input ∧ (cleanup s).target = s.target ∧
    (cleanup s).result = s.result ∧ (cleanup s).loading = s.loading ∧
    (cleanup s).error = s.error ∧ (cleanup s).controllerRef = s.controllerRef ∧
    (cleanup s).debounceRef = s.debounceRef ∧ (cleanup s).mounted = s.mounted ∧
    (cleanup s).timers = (clearCurrent s).timers ∧
    (cleanup s).fetches.length = s.fetches.length := by
  have h := clearCurrent_frame s
  have g := abortCurrent_frame (clearCurrent s)
  have l := abortCurrent_length (clearCurrent s)
  unfold cleanup
  refine ⟨g.1.trans h.1, g.2.1.trans h.2.1, g.2.2.1.trans h.2.2.1,
    g.2.2.2.1.trans h.2.2.2.1, g.2.2.2.2.1.trans h.2.2.2.2.1,
    g.2.2.2.2.2.1.trans h.2.2.2.2.2.1, g.2.2.2.2.2.2.1.trans h.2.2.2.2.2.2.1,
    g.2.2.2.2.2.2.2.2.trans h.2.2.2.2.2.2.2.2.1, g.2.2.2.2.2.2.2.1, ?_⟩
  rw [l, h.2.2.2.2.2.2.2.1]

/-! ## The timers -/

theorem cleanup_none_pending {s : Home}
    (hs : ∀ i t, s.timers[i]? = some t → t.pending = true → s.debounceRef = some i)
    {j : Nat} {y : Timer} (h : (cleanup s).timers[j]? = some y) : y.pending = false := by
  rw [(cleanup_frame s).2.2.2.2.2.2.2.2.1] at h
  exact clearCurrent_none_pending hs h

theorem effect_timersOk {s : Home}
    (hn : ∀ (j : Nat) (y : Timer), s.timers[j]? = some y → y.pending = false)
    (hm : s.mounted = true) :
    TimersOk (effect s) := by
  intro i t hi hp
  have hf := clearCurrent_frame s
  unfold effect at hi ⊢
  simp only at hi ⊢
  by_cases hlt : i < (clearCurrent s).timers.length
  · rw [List.getElem?_append_left hlt] at hi
    have h2 := clearCurrent_pending hi hp
    rw [hn i t h2.1] at hp
    exact Bool.noConfusion hp
  · rw [List.getElem?_append_right (Nat.le_of_not_lt hlt)] at hi
    cases hk : i - (clearCurrent s).timers.length with
    | zero =>
      rw [hk] at hi
      have ht := Option.some.inj hi
      have hi2 : i = (clearCurrent s).timers.length := by omega
      subst ht
      exact ⟨by rw [hi2], rfl, rfl, rfl, hf.2.2.2.2.2.2.2.2.1.trans hm⟩
    | succ k =>
      rw [hk] at hi
      simp at hi

theorem commit_timersOk {s : Home}
    (hs : ∀ i t, s.timers[i]? = some t → t.pending = true → s.debounceRef = some i)
    (hm : s.mounted = true) : TimersOk (commit s) := by
  unfold commit
  exact effect_timersOk (fun j y h => cleanup_none_pending hs h)
    ((cleanup_frame s).2.2.2.2.2.2.2.1.trans hm)

theorem timersOk_of_frame {s s2 : Home} (hs : TimersOk s) (ht : s2.timers = s.timers)
    (hd : s2.debounceRef = s.debounceRef) (hi : s2.input = s.input)
    (hg : s2.target = s.target) (hm : s2.mounted = s.mounted) : TimersOk s2 := by
  intro i t h hp
  rw [ht] at h
  rw [hd, hi, hg, hm]
  exact hs i t h hp

theorem timersOk_fired {s : Home} (hs : TimersOk s) (t : Nat) :
    TimersOk { s with timers := updateAt (fun y => { y with pending := false }) s.timers t } := by
  intro i x h hp
  have h2 := getElem?_updateAt_of (fun y : Timer => { y with pending := false })
    (fun y => y.pending) (fun _ => rfl) h hp
  exact hs i x h2.2 hp

theorem step_timersOk (stringify : Json → String) {s : Home} (hs : TimersOk s) (e : Event) :
    TimersOk (step stringify s e) := by
  have hs1 : ∀ i t, s.timers[i]? = some t → t.pending = true → s.debounceRef = some i :=
    fun i t h hp => (hs i t h hp).1
  cases e with
  | changeInput v =>
    simp only [step]
    split
    · rename_i hc
      simp only [Bool.and_eq_true] at hc
      exact commit_timersOk (s := { s with input := v }) hs1 hc.1
    · exact hs
  | changeTarget v =>
    simp only [step]
    split
    · rename_i hc
      simp only [Bool.and_eq_true] at hc
      exact commit_timersOk (s := { s with target := v }) hs1 hc.1
    · exact hs
  | translateNow =>
    simp only [step]
    split
    · have hf := translate_frame s s.input s.target
      exact timersOk_of_frame hs hf.2.2.2.1 hf.2.2.1 hf.1 hf.2.1 hf.2.2.2.2
    · exact hs
  | clear =>
    simp only [step]
    split
    · rename_i hm
      split
      · exact commit_timersOk (s := { s with input := "", result := .str "" }) hs1 hm
      · rename_i hin
        have hin2 : s.input = "" := by simpa using hin
        exact timersOk_of_frame hs rfl rfl hin2.symm rfl rfl
    · exact hs
  | timerFires t =>
    simp only [step]
    split
    · exact hs
    · split
      · rename_i x hx hp
        rw [applySetters_mounted _ (hs t x hx hp).2.2.2.2]
        have hf := translate_frame
          { s with timers := updateAt (fun y => { y with pending := false }) s.timers t }
        have hf2 := hf x.input x.target
        exact timersOk_of_frame (timersOk_fired hs t) hf2.2.2.2.1 hf2.2.2.1 hf2.1 hf2.2.1
          hf2.2.2.2.2
      · exact hs
  | settles i fetched =>
    simp only [step]
    split
    · exact hs
    · split
      · exact hs
      · rename_i f _ _
        have hf := resume_frame stringify
          { s with fetches := updateAt (fun g => { g with settled := true }) s.fetches i }
          (delivered f fetched)
        have ha := applySetters_frame s
          (resume stringify
            { s with fetches := updateAt (fun g => { g with settled := true }) s.fetches i }
            (delivered f fetched))
        have hc := applySetters_cells s
          (resume stringify
            { s with fetches := updateAt (fun g => { g with settled := true }) s.fetches i }
            (delivered f fetched))
        exact timersOk_of_frame hs (ha.2.2.2.1.trans hf.2.2.2.2.2.1) (ha.2.1.trans hf.2.2.2.1)
          (hc.1 hf.1) (hc.2.1 hf.2.1) (ha.2.2.2.2.trans hf.2.2.2.2.2.2)
  | unmount =>
    simp only [step]
    split
    · intro i t h hp
      have h2 : (cleanup s).timers[i]? = some t := h
      rw [cleanup_none_pending hs1 h2] at hp
      exact Bool.noConfusion hp
    · exact hs

/-! ## The fetch calls -/

theorem fetchesOk_of_frame {s s2 : Home} (hs : FetchesOk s) (hf : s2.fetches = s.fetches)
    (hc : s2.controllerRef = s.controllerRef) (hm : s2.mounted = s.mounted) :
    FetchesOk s2 := by
  unfold FetchesOk
  rw [hf, hc, hm]
  exact hs

theorem cleanup_none_inFlight {s : Home}
    (hs : ∀ i f, s.fetches[i]? = some f → f.inFlight = true → s.controllerRef = some i)
    {j : Nat} {y : Fetch} (h : (cleanup s).fetches[j]? = some y) : y.inFlight = false := by
  have hf := clearCurrent_frame s
  unfold cleanup at h
  refine abortCurrent_none_inFlight (s := clearCurrent s) ?_ h
  rw [hf.2.2.2.2.2.2.2.1, hf.2.2.2.2.2.1]
  exact hs

theorem commit_fetchesOk {s : Home} (hs : FetchesOk s) : FetchesOk (commit s) := by
  have he := effect_frame (cleanup s)
  have hc := cleanup_frame s
  unfold commit
  constructor
  · intro i f h hp
    rw [he.2.2.2.2.2.2.1] at h
    rw [cleanup_none_inFlight (fun i f h hp => (hs.1 i f h hp).1) h] at hp
    exact Bool.noConfusion hp
  · intro c h
    rw [he.2.2.2.2.2.1, hc.2.2.2.2.2.1] at h
    rw [he.2.2.2.2.2.2.1, hc.2.2.2.2.2.2.2.2.2]
    exact hs.2 c h

theorem translate_fetchesOk {s : Home} (hs : FetchesOk s) (hm : s.mounted = true)
    (input target : String) : FetchesOk (translate s input target) := by
  cases hb : isBlank input with
  | true =>
    rw [translate_of_blank target hb]
    exact fetchesOk_of_frame hs rfl rfl rfl
  | false =>
    rw [translate_of_nonblank target hb]
    have hl := abortCurrent_length s
    constructor
    · intro i f h hp
      simp only at h ⊢
      by_cases hlt : i < (abortCurrent s).fetches.length
      · rw [List.getElem?_append_left hlt] at h
        rw [abortCurrent_none_inFlight (fun i f h hp => (hs.1 i f h hp).1) h] at hp
        exact Bool.noConfusion hp
      · rw [List.getElem?_append_right (Nat.le_of_not_lt hlt)] at h
        cases hk : i - (abortCurrent s).fetches.length with
        | zero =>
          have hi2 : i = s.fetches.length := by omega
          exact ⟨by rw [hi2], hm⟩
        | succ k =>
          rw [hk] at h
          simp at h
    · intro c h
      simp only at h ⊢
      have hc : s.fetches.length = c := Option.some.inj h
      rw [List.length_append, hl, ← hc]
      simp

theorem fetchesOk_settled {s : Home} (hs : FetchesOk s) (i : Nat) :
    FetchesOk
      { s with fetches := updateAt (fun g => { g with settled := true }) s.fetches i } := by
  constructor
  · intro j y h hp
    have h2 := getElem?_updateAt_of (fun g : Fetch => { g with settled := true })
      (fun g => g.inFlight) (fun g => by simp [Fetch.inFlight]) h hp
    exact hs.1 j y h2.2 hp
  · intro c h
    simp only [length_updateAt]
    exact hs.2 c h

theorem step_fetchesOk (stringify : Json → String) {s : Home} (ht : TimersOk s)
    (hs : FetchesOk s) (e : Event) : FetchesOk (step stringify s e) := by
  cases e with
  | changeInput v =>
    simp only [step]
    split
    · exact commit_fetchesOk (s := { s with input := v }) hs
    · exact hs
  | changeTarget v =>
    simp only [step]
    split
    · exact commit_fetchesOk (s := { s with target := v }) hs
    · exact hs
  | translateNow =>
    simp only [step]
    split
    · rename_i hm
      exact translate_fetchesOk hs hm _ _
    · exact hs
  | clear =>
    simp only [step]
    split
    · split
      · exact commit_fetchesOk (s := { s with input := "", result := .str "" }) hs
      · exact fetchesOk_of_frame hs rfl rfl rfl
    · exact hs
  | timerFires t =>
    simp only [step]
    split
    · exact hs
    · split
      · rename_i x hx hp
        have hm : s.mounted = true := (ht t x hx hp).2.2.2.2
        rw [applySetters_mounted _ hm]
        exact translate_fetchesOk
          (s := { s with timers := updateAt (fun y => { y with pending := false }) s.timers t })
          hs hm _ _
      · exact hs
  | settles i fetched =>
    simp only [step]
    split
    · exact hs
    · split
      · exact hs
      · rename_i f _ _
        have hf := resume_frame stringify
          { s with fetches := updateAt (fun g => { g with settled := true }) s.fetches i }
          (delivered f fetched)
        have ha := applySetters_frame s
          (resume stringify
            { s with fetches := updateAt (fun g => { g with settled := true }) s.fetches i }
            (delivered f fetched))
        exact fetchesOk_of_frame (fetchesOk_settled hs i) (ha.2.2.1.trans hf.2.2.2.2.1)
          (ha.1.trans hf.2.2.1) (ha.2.2.2.2.trans hf.2.2.2.2.2.2)
  | unmount =>
    simp only [step]
    split
    · constructor
      · intro i f h hp
        have h2 : (cleanup s).fetches[i]? = some f := h
        rw [cleanup_none_inFlight (fun i f h hp => (hs.1 i f h hp).1) h2] at hp
        exact Bool.noConfusion hp
      · intro c h
        have h2 : (cleanup s).controllerRef = some c := h
        rw [(cleanup_frame s).2.2.2.2.2.1] at h2
        have h3 : c < s.fetches.length := hs.2 c h2
        rw [← (cleanup_frame s).2.2.2.2.2.2.2.2.2] at h3
        exact h3
    · exact hs

/-! ## Reachable states -/

theorem init_timersOk : TimersOk init := by
  unfold init
  refine effect_timersOk ?_ rfl
  intro j y h
  simp at h

theorem init_fetchesOk : FetchesOk init := by
  constructor
  · intro i f h
    have h2 : ([] : List Fetch)[i]? = some f := h
    simp at h2
  · intro c h
    exact Option.noConfusion h

theorem run_ok (stringify : Json → String) (s : Home) (ht : TimersOk s) (hf : FetchesOk s)
    (es : List Event) : TimersOk (run stringify s es) ∧ FetchesOk (run stringify s es) := by
  induction es generalizing s with
  | nil => exact ⟨ht, hf⟩
  | cons e es ih =>
    exact ih (step stringify s e) (step_timersOk stringify ht e)
      (step_fetchesOk stringify ht hf e)

theorem reachable_ok (stringify : Json → String) (es : List Event) :
    TimersOk (run stringify init es) ∧ FetchesOk (run stringify init es) :=
  run_ok stringify init init_timersOk init_fetchesOk es

theorem run_append (stringify : Json → String) (s : Home) (es fs : List Event) :
    run stringify s (es ++ fs) = run stringify (run stringify s es) fs := by
  unfold run
  exact List.foldl_append _ _ _ _

/-- In a list whose elements satisfying `p` all sit at one index, at most one element
satisfies `p`. -/
theorem filter_length_le_one {α : Type} (p : α → Bool) (l : List α)
    (h : ∀ (i j : Nat) (x y : α), l[i]? = some x → l[j]? = some y → p x = true → p y = true →
      i = j) :
    (l.filter p).length ≤ 1 := by
  induction l with
  | nil => simp
  | cons a as ih =>
    have ih2 := ih (fun i j x y hi hj hx hy =>
      Nat.succ.inj (h (i + 1) (j + 1) x y (by simpa using hi) (by simpa using hj) hx hy))
    cases ha : p a with
    | false =>
      rw [List.filter_cons_of_neg (by simp [ha])]
      exact ih2
    | true =>
      rw [List.filter_cons_of_pos ha]
      have hnil : as.filter p = [] := by
        rw [List.filter_eq_nil_iff]
        intro y hy hpy
        obtain ⟨k, hk⟩ := List.getElem?_of_mem hy
        have := h 0 (k + 1) a y (by simp) (by simpa using hk) ha hpy
        omega
      simp [hnil]

/-! ## Edits and timers -/

theorem commit_frame (s : Home) :
    (commit s).input = s.input ∧ (commit s).target = s.target ∧
    (commit s).result = s.result ∧ (commit s).error = s.error ∧
    (commit s).mounted = s.mounted ∧ (commit s).fetches.length = s.fetches.length := by
  have he := effect_frame (cleanup s)
  have hc := cleanup_frame s
  unfold commit
  refine ⟨he.1.trans hc.1, he.2.1.trans hc.2.1, he.2.2.1.trans hc.2.2.1,
    he.2.2.2.2.1.trans hc.2.2.2.2.1, he.2.2.2.2.2.2.2.trans hc.2.2.2.2.2.2.2.1, ?_⟩
  rw [he.2.2.2.2.2.2.1]
  exact hc.2.2.2.2.2.2.2.2.2

theorem step_edit_frame (stringify : Json → String) (s : Home) (e : Edit) :
    (step stringify s e.event).mounted = s.mounted ∧
    (step stringify s e.event).fetches.length = s.fetches.length := by
  cases e with
  | input v =>
    simp only [Edit.event, step]
    split
    · have h := commit_frame { s with input := v }
      exact ⟨h.2.2.2.2.1, h.2.2.2.2.2⟩
    · exact ⟨rfl, rfl⟩
  | target v =>
    simp only [Edit.event, step]
    split
    · have h := commit_frame { s with target := v }
      exact ⟨h.2.2.2.2.1, h.2.2.2.2.2⟩
    · exact ⟨rfl, rfl⟩

theorem run_edits_frame (stringify : Json → String) (s : Home) (es : List Edit) :
    (run stringify s (es.map Edit.event)).mounted = s.mounted ∧
    (run stringify s (es.map Edit.event)).fetches.length = s.fetches.length := by
  induction es generalizing s with
  | nil => exact ⟨rfl, rfl⟩
  | cons e es ih =>
    have h1 := step_edit_frame stringify s e
    have h2 := ih (step stringify s e.event)
    exact ⟨h2.1.trans h1.1, h2.2.trans h1.2⟩

theorem step_edit_applied (stringify : Json → String) (s : Home) (e : Edit)
    (hm : s.mounted = true) : e.applied (step stringify s e.event) := by
  cases e with
  | input v =>
    simp only [Edit.event, step, Edit.applied]
    split
    · exact (commit_frame { s with input := v }).1
    · rename_i h
      have h2 : v = s.input := by simpa [hm] using h
      exact h2.symm
  | target v =>
    simp only [Edit.event, step, Edit.applied]
    split
    · exact (commit_frame { s with target := v }).2.1
    · rename_i h
      have h2 : v = s.target := by simpa [hm] using h
      exact h2.symm

theorem step_timerFires_idle (stringify : Json → String) {s : Home}
    (hn : ∀ (j : Nat) (y : Timer), s.timers[j]? = some y → y.pending = false) (t : Nat) :
    step stringify s (.timerFires t) = s := by
  simp only [step]
  split
  · rfl
  · rename_i x hx
    rw [hn t x hx]
    simp

theorem run_fires_idle (stringify : Json → String) {s : Home}
    (hn : ∀ (j : Nat) (y : Timer), s.timers[j]? = some y → y.pending = false)
    (fires : List Nat) : run stringify s (fires.map .timerFires) = s := by
  induction fires with
  | nil => rfl
  | cons t ts ih =>
    show run stringify (step stringify s (.timerFires t)) (ts.map .timerFires) = s
    rw [step_timerFires_idle stringify hn t]
    exact ih

theorem step_timerFires_pending (stringify : Json → String) {s : Home} (hs : TimersOk s)
    {t : Nat} {x : Timer} (hx : s.timers[t]? = some x) (hp : x.pending = true) :
    step stringify s (.timerFires t) =
      translate { s with timers := updateAt (fun y => { y with pending := false }) s.timers t }
        x.input x.target := by
  simp only [step, hx, hp, if_true]
  exact applySetters_mounted _ (hs t x hx hp).2.2.2.2

theorem fired_none_pending (stringify : Json → String) {s : Home} (hs : TimersOk s) {t : Nat}
    {x : Timer} (hx : s.timers[t]? = some x) (hp : x.pending = true) (j : Nat) (y : Timer)
    (hy : (step stringify s (.timerFires t)).timers[j]? = some y) : y.pending = false := by
  rw [step_timerFires_pending stringify hs hx hp, (translate_frame _ _ _).2.2.2.1] at hy
  cases hyp : y.pending with
  | false => rfl
  | true =>
    have h2 := getElem?_updateAt_of (fun y : Timer => { y with pending := false })
      (fun y => y.pending) (fun _ => rfl) hy hyp
    have h3 := (hs j y h2.2 hyp).1
    rw [(hs t x hx hp).1] at h3
    exact absurd (Option.some.inj h3).symm h2.1

theorem run_fires (stringify : Json → String) {s : Home} (hs : TimersOk s)
    (fires : List Nat) :
    run stringify s (fires.map .timerFires) = s ∨
    ∃ i x, s.debounceRef = some i ∧ s.timers[i]? = some x ∧ x.pending = true ∧
      run stringify s (fires.map .timerFires) = step stringify s (.timerFires i) := by
  induction fires with
  | nil => exact Or.inl rfl
  | cons t ts ih =>
    show run stringify (step stringify s (.timerFires t)) (ts.map .timerFires) = s ∨
      ∃ i x, s.debounceRef = some i ∧ s.timers[i]? = some x ∧ x.pending = true ∧
        run stringify (step stringify s (.timerFires t)) (ts.map .timerFires) =
          step stringify s (.timerFires i)
    cases hx : s.timers[t]? with
    | none =>
      have h1 : step stringify s (.timerFires t) = s := by simp only [step, hx]
      rw [h1]
      exact ih
    | some x =>
      cases hp : x.pending with
      | false =>
        have h1 : step stringify s (.timerFires t) = s := by simp [step, hx, hp]
        rw [h1]
        exact ih
      | true =>
        refine Or.inr ⟨t, x, (hs t x hx hp).1, hx, hp, ?_⟩
        exact run_fires_idle stringify (fired_none_pending stringify hs hx hp) ts

theorem translate_length (s : Home) (input target : String) :
    (translate s input target).fetches.length ≤ s.fetches.length + 1 := by
  cases hb : isBlank input with
  | true =>
    rw [translate_of_blank target hb]
    exact Nat.le_succ _
  | false =>
    rw [translate_of_nonblank target hb]
    simp only [List.length_append, abortCurrent_length]
    exact Nat.le_refl _

theorem translate_new (s : Home) (input target : String) (f : Fetch)
    (h : (translate s input target).fetches[s.fetches.length]? = some f) :
    f.text = input ∧ f.target = target := by
  cases hb : isBlank input with
  | true =>
    rw [translate_of_blank target hb] at h
    have h2 : s.fetches[s.fetches.length]? = some f := h
    simp at h2
  | false =>
    rw [translate_sent target hb] at h
    have h2 := Option.some.inj h
    subst h2
    exact ⟨rfl, rfl⟩

/-! ## After teardown -/

theorem step_unmount (stringify : Json → String) {s : Home} (ht : TimersOk s)
    (hf : FetchesOk s) :
    (step stringify s .unmount).mounted = false ∧
    (∀ (i : Nat) (t : Timer), (step stringify s .unmount).timers[i]? = some t →
      t.pending = false) ∧
    (∀ (i : Nat) (f : Fetch), (step stringify s .unmount).fetches[i]? = some f →
      f.inFlight = false) := by
  have ht2 := step_timersOk stringify ht .unmount
  have hf2 := step_fetchesOk stringify ht hf .unmount
  have hm : (step stringify s .unmount).mounted = false := by
    simp only [step]
    split
    · rfl
    · rename_i h
      simpa using h
  refine ⟨hm, fun i t hi => ?_, fun i f hi => ?_⟩
  · cases hp : t.pending with
    | false => rfl
    | true =>
      have h := (ht2 i t hi hp).2.2.2.2
      rw [hm] at h
      exact Bool.noConfusion h
  · cases hp : f.inFlight with
    | false => rfl
    | true =>
      have h := (hf2.1 i f hi hp).2
      rw [hm] at h
      exact Bool.noConfusion h

/-- On an unmounted component with no timer pending, an event changes no state cell and no
timer, and makes no fetch call. -/
theorem step_frame_unmounted (stringify : Json → String) {s : Home} (hm : s.mounted = false)
    (hn : ∀ (j : Nat) (y : Timer), s.timers[j]? = some y → y.pending = false) (e : Event) :
    (step stringify s e).mounted = s.mounted ∧
    (step stringify s e).timers = s.timers ∧
    (step stringify s e).fetches.length = s.fetches.length ∧
    (step stringify s e).input = s.input ∧
    (step stringify s e).target = s.target ∧
    (step stringify s e).result = s.result ∧
    (step stringify s e).loading = s.loading ∧
    (step stringify s e).error = s.error := by
  cases e with
  | changeInput v => simp [step, hm]
  | changeTarget v => simp [step, hm]
  | translateNow => simp [step, hm]
  | clear => simp [step, hm]
  | unmount => simp [step, hm]
  | timerFires t =>
    rw [step_timerFires_idle stringify hn t]
    exact ⟨rfl, rfl, rfl, rfl, rfl, rfl, rfl, rfl⟩
  | settles i fetched =>
    cases hf : s.fetches[i]? with
    | none =>
      have h : step stringify s (.settles i fetched) = s := by simp only [step, hf]
      rw [h]
      exact ⟨rfl, rfl, rfl, rfl, rfl, rfl, rfl, rfl⟩
    | some f =>
      cases hs : f.settled with
      | true =>
        have h : step stringify s (.settles i fetched) = s := by simp [step, hf, hs]
        rw [h]
        exact ⟨rfl, rfl, rfl, rfl, rfl, rfl, rfl, rfl⟩
      | false =>
        rw [step_settles stringify fetched hf hs]
        have hr := resume_frame stringify
          { s with fetches := updateAt (fun g => { g with settled := true }) s.fetches i }
          (delivered f fetched)
        have ha := applySetters_frame s
          (resume stringify
            { s with fetches := updateAt (fun g => { g with settled := true }) s.fetches i }
            (delivered f fetched))
        have hu := applySetters_unmounted
          (resume stringify
            { s with fetches := updateAt (fun g => { g with settled := true }) s.fetches i }
            (delivered f fetched)) hm
        refine ⟨ha.2.2.2.2.trans hr.2.2.2.2.2.2, ha.2.2.2.1.trans hr.2.2.2.2.2.1, ?_, hu.1,
          hu.2.1, hu.2.2.1, hu.2.2.2.1, hu.2.2.2.2⟩
        rw [ha.2.2.1, hr.2.2.2.2.1]
        exact length_updateAt _ _ _

theorem run_frame_unmounted (stringify : Json → String) {s : Home} (hm : s.mounted = false)
    (hn : ∀ (j : Nat) (y : Timer), s.timers[j]? = some y → y.pending = false)
    (post : List Event) :
    (run stringify s post).fetches.length = s.fetches.length ∧
    (run stringify s post).input = s.input ∧
    (run stringify s post).target = s.target ∧
    (run stringify s post).result = s.result ∧
    (run stringify s post).loading = s.loading ∧
    (run stringify s post).error = s.error := by
  induction post generalizing s with
  | nil => exact ⟨rfl, rfl, rfl, rfl, rfl, rfl⟩
  | cons e es ih =>
    have h1 := step_frame_unmounted stringify hm hn e
    have h2 := ih (s := step stringify s e) (h1.1.trans hm) (by rw [h1.2.1]; exact hn)
    exact ⟨h2.1.trans h1.2.2.1, h2.2.1.trans h1.2.2.2.1, h2.2.2.1.trans h1.2.2.2.2.1,
      h2.2.2.2.1.trans h1.2.2.2.2.2.1, h2.2.2.2.2.1.trans h1.2.2.2.2.2.2.1,
      h2.2.2.2.2.2.trans h1.2.2.2.2.2.2.2⟩

/-! ## Two calls in flight -/

/-- What the settlement of a sent, unsettled fetch call leaves in `result` and `error`. -/
theorem step_settles_fields (stringify : Json → String) {s : Home} {i : Nat} {f : Fetch}
    (fetched : Except JsError Response) (hf : s.fetches[i]? = some f) (hs : f.settled = false) :
    (step stringify s (.settles i fetched)).result =
      (if s.mounted = true then (resume stringify s (delivered f fetched)).result
       else s.result) ∧
    (step stringify s (.settles i fetched)).error =
      (if s.mounted = true then (resume stringify s (delivered f fetched)).error
       else s.error) := by
  rw [step_settles stringify fetched hf hs]
  by_cases hm : s.mounted = true
  · rw [applySetters_mounted _ hm, if_pos hm, if_pos hm]
    constructor
    · rw [resume_result, resume_result]
    · rw [resume_error, resume_error]
  · have hm2 : s.mounted = false := by simpa using hm
    have hu := applySetters_unmounted
      (resume stringify
        { s with fetches := updateAt (fun g => { g with settled := true }) s.fetches i }
        (delivered f fetched)) hm2
    rw [if_neg hm, if_neg hm]
    exact ⟨hu.2.2.1, hu.2.2.2.2⟩

theorem resume_congr (stringify : Json → String) {s s2 : Home}
    (fetched : Except JsError Response) (hr : s2.result = s.result) (he : s2.error = s.error) :
    (resume stringify s2 fetched).result = (resume stringify s fetched).result ∧
    (resume stringify s2 fetched).error = (resume stringify s fetched).error := by
  constructor
  · rw [resume_result, resume_result, hr]
  · rw [resume_error, resume_error, he]

theorem step_settles_other (stringify : Json → String) (s : Home) {i j : Nat} (hij : j ≠ i)
    (fetched : Except JsError Response) :
    (step stringify s (.settles i fetched)).fetches[j]? = s.fetches[j]? := by
  simp only [step]
  split
  · rfl
  · split
    · rfl
    · rw [(applySetters_frame _ _).2.2.1, (resume_frame stringify _ _).2.2.2.2.1]
      simp only
      rw [getElem?_updateAt, if_neg hij]

/-! ## The outcome of one call of `translate` -/

/-- C1: for every state of the controller and every input that is empty or consists only of
white space, a call of `translate` ends with `result` the empty string and `error` null, and
makes no fetch call: the list of fetch calls, abort flags included, is what it was. -/
theorem translate_blank_input (s : Home) (input target : String) (h : isBlank input = true) :
    (translate s input target).result = .str "" ∧
    (translate s input target).error = none ∧
    (translate s input target).fetches = s.fetches := by
  rw [translate_of_blank target h]
  exact ⟨rfl, rfl, rfl⟩

/-- C1 at an input of a blank, a tab and a line feed. -/
theorem translate_blank_input_witness :
    isBlank " \t\n" = true ∧
    (translate init " \t\n" "es").result = .str "" ∧
    (translate init " \t\n" "es").error = none ∧
    (translate init " \t\n" "es").fetches = init.fetches :=
  ⟨by decide, translate_blank_input init " \t\n" "es" (by decide)⟩

/-- C2: for a non-blank input, `translate` sends one fetch call; when that call, not canceled,
settles with a 2xx response whose JSON body has the string `t` at `data.translatedText`, the
invocation ends with `result` equal to `t` and `error` null. -/
theorem translate_success (stringify : Json → String) (s : Home) (input target : String)
    (res : Response) (json data : Json) (t : String)
    (hin : isBlank input = false) (hok : res.ok = true) (hjson : res.json = .ok json)
    (hdata : json.prop "data" = some data)
    (htext : data.prop "translatedText" = some (.str t)) :
    (translate s input target).fetches[s.fetches.length]? =
      some { text := input, target := target, aborted := false, settled := false } ∧
    (translateSettled stringify s input target (.ok res)).result = .str t ∧
    (translateSettled stringify s input target (.ok res)).error = none := by
  have hsent := translate_sent (s := s) target hin
  have htt : translatedText json = some (.str t) := by
    rw [translatedText_of_data hdata, htext]
  have htry : tryBlock stringify (.ok res) = .ok (.str t) := by
    simp [tryBlock, hok, hjson, htt, nullish]
  rw [translateSettled_of_nonblank stringify target _ hin]
  refine ⟨hsent, ?_, ?_⟩
  · rw [resume_result, htry]
  · rw [resume_error, htry]
    simp only
    rw [translate_of_nonblank target hin]

/-- C2 at the response of the spec's example. -/
theorem translate_success_witness :
    (translateSettled stringifyJson init "Hello" "es"
      (.ok { status := 200, text := .ok "", json := .ok holaBody })).result = .str "Hola" ∧
    (translateSettled stringifyJson init "Hello" "es"
      (.ok { status := 200, text := .ok "", json := .ok holaBody })).error = none :=
  (translate_success stringifyJson init "Hello" "es"
    { status := 200, text := .ok "", json := .ok holaBody } holaBody
    (.obj [("translatedText", .str "Hola")]) "Hola" (by decide) (by decide) rfl rfl rfl).2

/-- C3: for a non-blank input and a 2xx response whose JSON body `json` has no
`data.translatedText` (no `data` property, a `data` without `translatedText`, or a
`translatedText` that is null), the invocation ends with `result` equal to the serialisation
of the whole body and `error` null. -/
theorem translate_fallback (stringify : Json → String) (s : Home) (input target : String)
    (res : Response) (json : Json)
    (hin : isBlank input = false) (hok : res.ok = true) (hjson : res.json = .ok json)
    (habsent : json.prop "data" = none ∨
      (∃ data, json.prop "data" = some data ∧ data.prop "translatedText" = none) ∨
      (∃ data, json.prop "data" = some data ∧ data.prop "translatedText" = some .null)) :
    (translateSettled stringify s input target (.ok res)).result = .str (stringify json) ∧
    (translateSettled stringify s input target (.ok res)).error = none := by
  have htt : nullish (translatedText json) (.str (stringify json)) = .str (stringify json) := by
    rcases habsent with h | ⟨data, hd, ht⟩ | ⟨data, hd, ht⟩
    · rw [translatedText_no_data h]
      rfl
    · rw [translatedText_of_data hd, ht]
      rfl
    · rw [translatedText_of_data hd, ht]
      rfl
  have htry : tryBlock stringify (.ok res) = .ok (.str (stringify json)) := by
    simp [tryBlock, hok, hjson, htt]
  rw [translateSettled_of_nonblank stringify target _ hin]
  constructor
  · rw [resume_result, htry]
  · rw [resume_error, htry]
    simp only
    rw [translate_of_nonblank target hin]

/-- C3 at the body of the spec's example, an object with the one property foo. -/
theorem translate_fallback_witness :
    (translateSettled stringifyJson init "Hello" "es"
      (.ok { status := 200, text := .ok "", json := .ok fooBody })).result =
      .str "\x7b\"foo\":\"bar\"\x7d" ∧
    (translateSettled stringifyJson init "Hello" "es"
      (.ok { status := 200, text := .ok "", json := .ok fooBody })).error = none :=
  translate_fallback stringifyJson init "Hello" "es"
    { status := 200, text := .ok "", json := .ok fooBody } fooBody
    (by decide) (by decide) rfl (Or.inl rfl)

/-- C4: for a non-blank input, a genuine failure of the fetch call ends the invocation with
`result` the empty string, whatever it was, and `error` the failure's message: for a response
that is not ok, with status `res.status` and body text `b`, the message is `API error: `
followed by the status, a blank and `b` (so it contains both), and for a rejection of `fetch`
with an exception not named `AbortError` it is that exception's message. -/
theorem translate_failure (stringify : Json → String) (s : Home) (input target : String)
    (hin : isBlank input = false) :
    (∀ (res : Response) (b : String), res.ok = false → res.text = .ok b →
      (translateSettled stringify s input target (.ok res)).result = .str "" ∧
      (translateSettled stringify s input target (.ok res)).error =
        some ("API error: " ++ toString res.status ++ " " ++ b) ∧
      (toString res.status).data <:+: ("API error: " ++ toString res.status ++ " " ++ b).data ∧
      b.data <:+: ("API error: " ++ toString res.status ++ " " ++ b).data) ∧
    (∀ err : JsError, err.name ≠ "AbortError" →
      (translateSettled stringify s input target (.error err)).result = .str "" ∧
      (translateSettled stringify s input target (.error err)).error = some err.message) := by
  constructor
  · intro res b hok htext
    have htry : tryBlock stringify (.ok res) =
        .error { name := "Error",
                 message := "API error: " ++ toString res.status ++ " " ++ b } := by
      simp [tryBlock, hok, htext]
    rw [translateSettled_of_nonblank stringify target _ hin]
    refine ⟨?_, ?_, ?_, ?_⟩
    · rw [resume_result, htry]
      simp
    · rw [resume_error, htry]
      simp
    · refine ⟨"API error: ".data, (" " ++ b).data, ?_⟩
      simp [String.data_append]
    · refine ⟨("API error: " ++ toString res.status ++ " ").data, [], ?_⟩
      simp [String.data_append]
  · intro err hname
    have htry : tryBlock stringify (.error err) = .error err := rfl
    rw [translateSettled_of_nonblank stringify target _ hin]
    constructor
    · rw [resume_result, htry]
      simp [hname]
    · rw [resume_error, htry]
      simp [hname]

/-- C4 at the 429 response of the spec's example and at a network failure. -/
theorem translate_failure_witness :
    (translateSettled stringifyJson init "Hello" "es" (.ok rateLimited)).result = .str "" ∧
    (translateSettled stringifyJson init "Hello" "es" (.ok rateLimited)).error =
      some "API error: 429 rate limited" ∧
    (translateSettled stringifyJson init "Hello" "es"
      (.error ⟨"TypeError", "Failed to fetch"⟩)).error = some "Failed to fetch" :=
  ⟨((translate_failure stringifyJson init "Hello" "es" (by decide)).1
      rateLimited "rate limited" (by decide) rfl).1,
   ((translate_failure stringifyJson init "Hello" "es" (by decide)).1
      rateLimited "rate limited" (by decide) rfl).2.1,
   ((translate_failure stringifyJson init "Hello" "es" (by decide)).2
      ⟨"TypeError", "Failed to fetch"⟩ (by decide)).2⟩

/-- C5: for every state and every fetch call that has been canceled (its controller was
aborted, by a newer call of `translate` or by the clean-up of the effect), the settlement of
that call, whenever it comes and whatever the service answered or the network reported (a
success payload, an error payload, an error), leaves `result` and `error` exactly as they
were: the call rejects with the abort error, on which the `catch` clause returns (line 95), so
no failure is shown. -/
theorem canceled_settlement_swallowed (stringify : Json → String) (s : Home) (i : Nat)
    (f : Fetch) (fetched : Except JsError Response) (hf : s.fetches[i]? = some f)
    (ha : f.aborted = true) :
    (step stringify s (.settles i fetched)).result = s.result ∧
    (step stringify s (.settles i fetched)).error = s.error :=
  ⟨(step_settles_aborted stringify fetched hf ha).2.2.1,
   (step_settles_aborted stringify fetched hf ha).2.2.2.1⟩

/-- C5 at the call for the initial input, canceled by an edit, with the service answering
late with the success payload of the spec's example and with a 429 response. -/
theorem canceled_settlement_swallowed_witness :
    canceledState.fetches[0]? =
      some { text := "Hello, how are you?", target := "es", aborted := true,
             settled := false } ∧
    ((step stringifyJson canceledState
      (.settles 0 (.ok { status := 200, text := .ok "", json := .ok holaBody }))).result =
      canceledState.result ∧
    (step stringifyJson canceledState
      (.settles 0 (.ok { status := 200, text := .ok "", json := .ok holaBody }))).error =
      canceledState.error) ∧
    ((step stringifyJson canceledState (.settles 0 (.ok rateLimited))).result =
      canceledState.result ∧
    (step stringifyJson canceledState (.settles 0 (.ok rateLimited))).error =
      canceledState.error) :=
  ⟨rfl,
   canceled_settlement_swallowed stringifyJson canceledState 0
    { text := "Hello, how are you?", target := "es", aborted := true, settled := false }
    (.ok { status := 200, text := .ok "", json := .ok holaBody }) rfl rfl,
   canceled_settlement_swallowed stringifyJson canceledState 0
    { text := "Hello, how are you?", target := "es", aborted := true, settled := false }
    (.ok rateLimited) rfl rfl⟩

/-! ## Reachable states: one call in flight, debouncing, teardown, supersession -/

/-- C6: in every state reachable from the initial one by any sequence of events, at most one
fetch call is in flight (sent, not settled, not canceled); and a call of `translate` on a
non-blank input aborts the fetch call whose handle `controllerRef` holds and sends the new
one, which is the last of the list. -/
theorem single_request_in_flight (stringify : Json → String) (es : List Event) :
    ((run stringify init es).fetches.filter Fetch.inFlight).length ≤ 1 ∧
    ∀ (input target : String) (c : Nat), isBlank input = false →
      (run stringify init es).controllerRef = some c →
      (∃ f, (translate (run stringify init es) input target).fetches[c]? = some f ∧
        f.aborted = true) ∧
      (translate (run stringify init es) input target).fetches[
          (run stringify init es).fetches.length]? =
        some { text := input, target := target, aborted := false, settled := false } ∧
      (translate (run stringify init es) input target).fetches.length =
        (run stringify init es).fetches.length + 1 := by
  have hok := (reachable_ok stringify es).2
  constructor
  · apply filter_length_le_one
    intro i j x y hi hj hx hy
    have h1 := (hok.1 i x hi hx).1
    have h2 := (hok.1 j y hj hy).1
    rw [h1] at h2
    exact Option.some.inj h2
  · intro input target c hb hc
    have hlt := hok.2 c hc
    refine ⟨?_, translate_sent target hb, ?_⟩
    · rw [translate_of_nonblank target hb]
      simp only
      have hlt2 : c < (abortCurrent (run stringify init es)).fetches.length := by
        rw [abortCurrent_length]
        exact hlt
      rw [List.getElem?_append_left hlt2]
      unfold abortCurrent
      rw [hc]
      simp only
      rw [getElem?_updateAt, if_pos rfl, List.getElem?_eq_getElem hlt]
      exact ⟨_, rfl, rfl⟩
    · rw [translate_of_nonblank target hb]
      simp only [List.length_append, abortCurrent_length]
      rfl

/-- C6 at the state in which the call sent by the first timer is in flight. -/
theorem single_request_in_flight_witness :
    ((run stringifyJson init [.timerFires 0]).fetches.filter Fetch.inFlight).length ≤ 1 ∧
    (∃ f, (translate (run stringifyJson init [.timerFires 0]) "Hi" "fr").fetches[0]? = some f ∧
      f.aborted = true) ∧
    (translate (run stringifyJson init [.timerFires 0]) "Hi" "fr").fetches[
        (run stringifyJson init [.timerFires 0]).fetches.length]? =
      some { text := "Hi", target := "fr", aborted := false, settled := false } ∧
    (translate (run stringifyJson init [.timerFires 0]) "Hi" "fr").fetches.length =
      (run stringifyJson init [.timerFires 0]).fetches.length + 1 :=
  ⟨(single_request_in_flight stringifyJson [.timerFires 0]).1,
   (single_request_in_flight stringifyJson [.timerFires 0]).2 "Hi" "fr" 0 (by decide) rfl⟩

/-- C7: from any reachable state, let one or more edits of the input or of the target follow
one another with no timer firing in between, and let then any timers fire.  The edits make
no fetch call; after them the one timer that can still be pending is the one started last,
with the delay 700 and the current `input` and `target`, which on a mounted component are
the values of the final edit; and all the firings together amount to nothing or to one
firing of that timer, so they make at most one fetch call, with those values. -/
theorem debounce_single_call (stringify : Json → String) (pre : List Event)
    (es : List Edit) (last : Edit) (fires : List Nat) :
    (afterEdits stringify pre es last).fetches.length =
      (run stringify init pre).fetches.length ∧
    ((run stringify init pre).mounted = true →
      last.applied (afterEdits stringify pre es last)) ∧
    (∀ i t, (afterEdits stringify pre es last).timers[i]? = some t → t.pending = true →
      (afterEdits stringify pre es last).debounceRef = some i ∧
      t.input = (afterEdits stringify pre es last).input ∧
      t.target = (afterEdits stringify pre es last).target ∧
      t.delay = 700) ∧
    (run stringify (afterEdits stringify pre es last) (fires.map .timerFires) =
      afterEdits stringify pre es last ∨
     ∃ i, (afterEdits stringify pre es last).debounceRef = some i ∧
       run stringify (afterEdits stringify pre es last) (fires.map .timerFires) =
         step stringify (afterEdits stringify pre es last) (.timerFires i)) ∧
    (run stringify (afterEdits stringify pre es last) (fires.map .timerFires)).fetches.length ≤
      (run stringify init pre).fetches.length + 1 ∧
    (∀ f,
      (run stringify (afterEdits stringify pre es last) (fires.map .timerFires)).fetches[
        (run stringify init pre).fetches.length]? = some f →
      f.text = (afterEdits stringify pre es last).input ∧
      f.target = (afterEdits stringify pre es last).target) := by
  have hlen := (run_edits_frame stringify (run stringify init pre) (es ++ [last])).2
  have hok : TimersOk (afterEdits stringify pre es last) := by
    unfold afterEdits
    rw [← run_append]
    exact (reachable_ok stringify _).1
  have hfires := run_fires stringify hok fires
  have happ : (run stringify init pre).mounted = true →
      last.applied (afterEdits stringify pre es last) := by
    intro hm
    unfold afterEdits
    rw [List.map_append, run_append]
    exact step_edit_applied stringify _ last
      ((run_edits_frame stringify (run stringify init pre) es).1.trans hm)
  have hs2 : run stringify (run stringify init pre) ((es ++ [last]).map Edit.event) =
      afterEdits stringify pre es last := rfl
  rw [hs2] at hlen
  generalize afterEdits stringify pre es last = s2 at hlen hok hfires happ ⊢
  refine ⟨hlen, happ, fun i t hi hp => ?_, ?_, ?_, ?_⟩
  · have h := hok i t hi hp
    exact ⟨h.1, h.2.1, h.2.2.1, h.2.2.2.1⟩
  · rcases hfires with h | ⟨i, x, hd, _, _, h⟩
    · exact Or.inl h
    · exact Or.inr ⟨i, hd, h⟩
  · rcases hfires with h | ⟨i, x, _, hx, hp, h⟩
    · rw [h, hlen]
      exact Nat.le_succ _
    · rw [h, step_timerFires_pending stringify hok hx hp, ← hlen]
      exact translate_length _ _ _
  · intro f hf
    rcases hfires with h | ⟨i, x, _, hx, hp, h⟩
    · rw [h, ← hlen] at hf
      simp at hf
    · rw [h, step_timerFires_pending stringify hok hx hp, ← hlen] at hf
      have h2 := translate_new
        { s2 with timers := updateAt (fun y => { y with pending := false }) s2.timers i }
        x.input x.target f hf
      have h3 := hok i x hx hp
      exact ⟨h2.1.trans h3.2.1, h2.2.trans h3.2.2.1⟩

/-- C7 at three edits, then the firing of the timer of each of them, the last one first. -/
theorem debounce_single_call_witness :
    (afterEdits stringifyJson [] [.input "H", .input "Hi"] (.target "fr")).fetches.length = 0 ∧
    (run stringifyJson (afterEdits stringifyJson [] [.input "H", .input "Hi"] (.target "fr"))
      [.timerFires 3, .timerFires 2, .timerFires 1, .timerFires 0]).fetches =
      [{ text := "Hi", target := "fr", aborted := false, settled := false }] ∧
    ((run stringifyJson (afterEdits stringifyJson [] [.input "H", .input "Hi"] (.target "fr"))
      ([3, 2, 1, 0].map .timerFires)).fetches.length ≤ 0 + 1) :=
  ⟨rfl, rfl,
   (debounce_single_call stringifyJson [] [.input "H", .input "Hi"] (.target "fr")
     [3, 2, 1, 0]).2.2.2.2.1⟩

/-- C8: from every reachable state, teardown leaves no timer pending and no fetch call in
flight (every call not yet settled is aborted); and whatever events follow teardown, timer
firings and settlements with any answer of the service included, no fetch call is made and
`input`, `target`, `result`, `loading` and `error` stay what they were at teardown. -/
theorem teardown_cancels (stringify : Json → String) (pre post : List Event) :
    (∀ (i : Nat) (t : Timer), (afterTeardown stringify pre).timers[i]? = some t →
      t.pending = false) ∧
    (∀ (i : Nat) (f : Fetch), (afterTeardown stringify pre).fetches[i]? = some f →
      f.inFlight = false) ∧
    (run stringify (afterTeardown stringify pre) post).fetches.length =
      (afterTeardown stringify pre).fetches.length ∧
    (run stringify (afterTeardown stringify pre) post).input =
      (afterTeardown stringify pre).input ∧
    (run stringify (afterTeardown stringify pre) post).target =
      (afterTeardown stringify pre).target ∧
    (run stringify (afterTeardown stringify pre) post).result =
      (afterTeardown stringify pre).result ∧
    (run stringify (afterTeardown stringify pre) post).loading =
      (afterTeardown stringify pre).loading ∧
    (run stringify (afterTeardown stringify pre) post).error =
      (afterTeardown stringify pre).error := by
  have hok := reachable_ok stringify pre
  have hu := step_unmount stringify hok.1 hok.2
  exact ⟨hu.2.1, hu.2.2, run_frame_unmounted stringify hu.1 hu.2.1 post⟩

/-- C8 at a teardown with the call for the initial input in flight and the first timer
replaced by the one of an edit: the call is aborted, the timer cleared, and the settlement of
the call, a firing of either timer and a click leave `loading` true and `result` empty. -/
theorem teardown_cancels_witness :
    (afterTeardown stringifyJson [.timerFires 0, .changeTarget "fr", .timerFires 1]).fetches =
      [{ text := "Hello, how are you?", target := "es", aborted := true, settled := false },
       { text := "Hello, how are you?", target := "fr", aborted := true,
         settled := false }] ∧
    (afterTeardown stringifyJson [.timerFires 0, .changeTarget "fr", .timerFires 1]).loading =
      true ∧
    (run stringifyJson
      (afterTeardown stringifyJson [.timerFires 0, .changeTarget "fr", .timerFires 1])
      [.settles 1 (.ok { status := 200, text := .ok "", json := .ok holaBody }),
       .timerFires 1, .timerFires 0, .translateNow]).loading =
      (afterTeardown stringifyJson [.timerFires 0, .changeTarget "fr", .timerFires 1]).loading ∧
    (run stringifyJson
      (afterTeardown stringifyJson [.timerFires 0, .changeTarget "fr", .timerFires 1])
      [.settles 1 (.ok { status := 200, text := .ok "", json := .ok holaBody }),
       .timerFires 1, .timerFires 0, .translateNow]).result =
      (afterTeardown stringifyJson [.timerFires 0, .changeTarget "fr", .timerFires 1]).result :=
  ⟨rfl, rfl,
   (teardown_cancels stringifyJson [.timerFires 0, .changeTarget "fr", .timerFires 1]
    [.settles 1 (.ok { status := 200, text := .ok "", json := .ok holaBody }),
     .timerFires 1, .timerFires 0, .translateNow]).2.2.2.2.2.2.1,
   (teardown_cancels stringifyJson [.timerFires 0, .changeTarget "fr", .timerFires 1]
    [.settles 1 (.ok { status := 200, text := .ok "", json := .ok holaBody }),
     .timerFires 1, .timerFires 0, .translateNow]).2.2.2.2.2.1⟩

/-- C9: let the handle in `controllerRef` be that of a fetch call not yet settled, and let
`translate` be called on a non-blank input.  The first call is aborted and the second sent;
when the first settles, whatever the service answered, `result` and `error` stay as they are;
and in whichever order the two settle, `result` and `error` end as they are when the second
call alone has settled, which on a mounted component is the outcome of the second invocation
run on its own. -/
theorem latest_request_wins (stringify : Json → String) (s : Home) (i : Nat) (f : Fetch)
    (input target : String) (first second : Except JsError Response)
    (hc : s.controllerRef = some i) (hf : s.fetches[i]? = some f) (hs : f.settled = false)
    (hin : isBlank input = false) :
    (translate s input target).fetches[i]? =
      some { text := f.text, target := f.target, aborted := true, settled := false } ∧
    (translate s input target).fetches[s.fetches.length]? =
      some { text := input, target := target, aborted := false, settled := false } ∧
    (step stringify (translate s input target) (.settles i first)).result =
      (translate s input target).result ∧
    (step stringify (translate s input target) (.settles i first)).error =
      (translate s input target).error ∧
    (step stringify (step stringify (translate s input target) (.settles i first))
      (.settles s.fetches.length second)).result =
      (step stringify (translate s input target) (.settles s.fetches.length second)).result ∧
    (step stringify (step stringify (translate s input target) (.settles i first))
      (.settles s.fetches.length second)).error =
      (step stringify (translate s input target) (.settles s.fetches.length second)).error ∧
    (step stringify (step stringify (translate s input target)
      (.settles s.fetches.length second)) (.settles i first)).result =
      (step stringify (translate s input target) (.settles s.fetches.length second)).result ∧
    (step stringify (step stringify (translate s input target)
      (.settles s.fetches.length second)) (.settles i first)).error =
      (step stringify (translate s input target) (.settles s.fetches.length second)).error ∧
    (s.mounted = true →
      step stringify (translate s input target) (.settles s.fetches.length second) =
        translateSettled stringify s input target second) := by
  have hlt : i < s.fetches.length := by
    by_contra hge
    rw [List.getElem?_eq_none (Nat.le_of_not_lt hge)] at hf
    exact Option.noConfusion hf
  have hne : s.fetches.length ≠ i := Nat.ne_of_gt hlt
  have hsent := translate_sent (s := s) target hin
  have hold : (translate s input target).fetches[i]? =
      some { text := f.text, target := f.target, aborted := true, settled := false } := by
    rw [translate_of_nonblank target hin]
    simp only
    have hlt2 : i < (abortCurrent s).fetches.length := by
      rw [abortCurrent_length]
      exact hlt
    rw [List.getElem?_append_left hlt2]
    unfold abortCurrent
    rw [hc]
    simp only
    rw [getElem?_updateAt, if_pos rfl, hf, ← hs]
    rfl
  have hfirst := step_settles_aborted stringify first hold rfl
  have hold2 : (step stringify (translate s input target)
      (.settles s.fetches.length second)).fetches[i]? =
      some { text := f.text, target := f.target, aborted := true, settled := false } := by
    rw [step_settles_other stringify _ hne.symm]
    exact hold
  have hsecond := step_settles_aborted stringify first hold2 rfl
  have hsent2 : (step stringify (translate s input target) (.settles i first)).fetches[
      s.fetches.length]? =
      some { text := input, target := target, aborted := false, settled := false } := by
    rw [step_settles_other stringify _ hne]
    exact hsent
  have h1 := step_settles_fields stringify second hsent2 rfl
  have h2 := step_settles_fields stringify second hsent rfl
  have h3 := resume_congr stringify
    (delivered { text := input, target := target, aborted := false, settled := false } second)
    hfirst.2.2.1 hfirst.2.2.2.1
  refine ⟨hold, hsent, hfirst.2.2.1, hfirst.2.2.2.1, ?_, ?_, hsecond.2.2.1, hsecond.2.2.2.1,
    fun hm => step_translate_settles stringify target second hin hm⟩
  · rw [h1.1, h2.1, hfirst.2.2.2.2.2.2.2, h3.1, hfirst.2.2.1]
  · rw [h1.2, h2.2, hfirst.2.2.2.2.2.2.2, h3.2, hfirst.2.2.2.1]

/-- C9 at the call sent by the first timer, superseded by a call for another input that
succeeds, with the service answering the superseded call too; in both orders of settlement
`result` is the text of the second answer. -/
theorem latest_request_wins_witness :
    (step stringifyJson
      (step stringifyJson (translate (run stringifyJson init [.timerFires 0]) "Hi" "fr")
        (.settles 0 (.ok { status := 200, text := .ok "", json := .ok fooBody })))
      (.settles 1 (.ok { status := 200, text := .ok "", json := .ok holaBody }))).result =
      .str "Hola" ∧
    (step stringifyJson
      (step stringifyJson (translate (run stringifyJson init [.timerFires 0]) "Hi" "fr")
        (.settles 1 (.ok { status := 200, text := .ok "", json := .ok holaBody })))
      (.settles 0 (.ok { status := 200, text := .ok "", json := .ok fooBody }))).result =
    (step stringifyJson (translate (run stringifyJson init [.timerFires 0]) "Hi" "fr")
      (.settles 1 (.ok { status := 200, text := .ok "", json := .ok holaBody }))).result :=
  ⟨rfl, (latest_request_wins stringifyJson (run stringifyJson init [.timerFires 0]) 0
    { text := "Hello, how are you?", target := "es", aborted := false, settled := false }
    "Hi" "fr" (.ok { status := 200, text := .ok "", json := .ok fooBody })
    (.ok { status := 200, text := .ok "", json := .ok holaBody })
    rfl rfl rfl (by decide)).2.2.2.2.2.2.1⟩

/-- C10 fails on the code: the first timer fires and sends a fetch call, the button Translate
now supersedes it with a second one, and when the superseded call settles with its abort
error the `finally` clause sets `loading` to false although the second call, the most recent
one, is in flight. -/
theorem loading_cleared_by_superseded :
    (run stringifyJson init [.timerFires 0, .translateNow]).loading = true ∧
    superseded.controllerRef = some 1 ∧
    superseded.fetches =
      [{ text := "Hello, how are you?", target := "es", aborted := true, settled := true },
       { text := "Hello, how are you?", target := "es", aborted := false,
         settled := false }] ∧
    superseded.loading = false :=
  ⟨rfl, rfl, rfl, rfl⟩

end Translator
